import Mathlib

/-!
Shallow embedding of the oRPC adapter layer: the Node and Fetch HTTP
handlers, the body-limit plugins, the plugin initialization performed by
the handler constructors, the proxy-based client, and the middleware
output helper.  Definitions are translated from the TypeScript sources;
theorems settle the specified properties of those definitions.
-/

namespace ORPC

/-- A chunk of a request body: a list of bytes.  Only chunk lengths matter
for the body limit, but the bytes themselves are kept so that delivery of
data downstream can be stated. -/
abbrev Chunk := List Nat

/-- Total byte size of a list of chunks. -/
def totalSize (chunks : List Chunk) : Nat :=
  (chunks.map List.length).sum

/-- The Content-Length header test used by both body-limit plugins:
`Number(headers['content-length']) > maxBodySize`.  A missing (or
non-numeric) header makes `Number(...)` evaluate to `NaN`, and
`NaN > maxBodySize` is `false`; this is modelled by `Option.none`. -/
def headerExceeds (contentLength : Option Nat) (maxBodySize : Nat) : Bool :=
  match contentLength with
  | some n => decide (n > maxBodySize)
  | none => false

/-- Outcome of the Node body-limit interceptor over a stream of body
chunks.  `ok delivered` means every chunk was forwarded downstream via
the original `emit`; `tooLarge received delivered` means a
`PAYLOAD_TOO_LARGE` error was thrown after `received` data events had
arrived, with `delivered` the chunks forwarded downstream before the
throw. -/
inductive LimitOutcome where
  | ok (delivered : List Chunk)
  | tooLarge (received : Nat) (delivered : List Chunk)
deriving DecidableEq, Repr

/-- Loop of the Node body-limit plugin after the first data event passed
the header check: for each chunk, `currentBodySize += chunk.length` and
a strict comparison `currentBodySize > maxBodySize` throws before the
chunk is forwarded via `originalEmit`. -/
def nodeEmitGo (maxBodySize : Nat) : Nat → Nat → List Chunk → List Chunk → LimitOutcome
  | _, _, [], delivered => .ok delivered
  | size, received, c :: rest, delivered =>
    if size + c.length > maxBodySize then
      .tooLarge (received + 1) delivered
    else
      nodeEmitGo maxBodySize (size + c.length) (received + 1) rest (delivered ++ [c])

/-- The Node `BodyLimitPlugin` interceptor, as a function of the declared
Content-Length and the sequence of `'data'` events seen by the
monkey-patched `request.emit`.  The header check (`checkHeader`) runs
inside the handling of the first data event, before that chunk is
counted or forwarded; with no data events, no check ever runs. -/
def nodeEmitRun (maxBodySize : Nat) (contentLength : Option Nat) (chunks : List Chunk) : LimitOutcome :=
  match chunks with
  | [] => .ok []
  | _ :: _ =>
    if headerExceeds contentLength maxBodySize then
      .tooLarge 1 []
    else
      nodeEmitGo maxBodySize 0 0 chunks []

/-- Final state of the wrapping `ReadableStream` built by the Fetch
`BodyLimitPlugin`: whether `controller.error` was called, the chunks
enqueued before that point, and how many chunks were pulled from the raw
reader (`rawReader.read()` results carrying data). -/
structure FetchWrapResult where
  errored : Bool
  queued : List Chunk
  pulled : Nat
deriving DecidableEq, Repr

/-- Read loop of the Fetch body-limit wrapper stream: pull a chunk from
the raw reader, add its length, compare strictly against the limit, and
either `controller.error` (dropping out) or `controller.enqueue`. -/
def fetchWrapGo (maxBodySize : Nat) : Nat → List Chunk → FetchWrapResult
  | _, [] => ⟨false, [], 0⟩
  | size, c :: rest =>
    if size + c.length > maxBodySize then
      ⟨true, [], 1⟩
    else
      let r := fetchWrapGo maxBodySize (size + c.length) rest
      ⟨r.errored, c :: r.queued, r.pulled + 1⟩

/-- The Fetch `BodyLimitPlugin` wrapper stream, for a request with a
body: the `start` callback first checks the Content-Length header before
reading anything, then runs the read loop. -/
def fetchWrap (maxBodySize : Nat) (contentLength : Option Nat) (chunks : List Chunk) : FetchWrapResult :=
  if headerExceeds contentLength maxBodySize then
    ⟨true, [], 0⟩
  else
    fetchWrapGo maxBodySize 0 chunks

/-- What a downstream consumer reading the wrapped stream afterwards can
obtain: erroring a `ReadableStream` clears its queue, so an errored
stream yields nothing, while a closed stream yields every enqueued
chunk. -/
def consumerReceives (r : FetchWrapResult) : List Chunk :=
  if r.errored then [] else r.queued

/-- Call-local state of one invocation of the Node body-limit
interceptor: the closure variables `isHeaderChecked` and
`currentBodySize`, together with the chunks forwarded downstream so far;
`dead` records that the interceptor already threw for this call. -/
inductive EmitState where
  | running (size received : Nat) (delivered : List Chunk) (headerChecked : Bool)
  | dead (outcome : LimitOutcome)
deriving DecidableEq, Repr

/-- Handling of a single `'data'` event by the patched `emit` of one
call: `checkHeader` first (only effective before it has succeeded once),
then count the chunk and compare strictly against the limit. -/
def emitStep (maxBodySize : Nat) (contentLength : Option Nat) : EmitState → Chunk → EmitState
  | .dead o, _ => .dead o
  | .running size received delivered headerChecked, c =>
    if !headerChecked && headerExceeds contentLength maxBodySize then
      .dead (.tooLarge (received + 1) delivered)
    else if size + c.length > maxBodySize then
      .dead (.tooLarge (received + 1) delivered)
    else
      .running (size + c.length) (received + 1) (delivered ++ [c]) true

/-- Fresh per-call state created when the interceptor runs for a call:
`currentBodySize = 0`, header not yet checked, nothing delivered. -/
def emitInit : EmitState := .running 0 0 [] false

/-- Outcome of a call once its data events are exhausted. -/
def emitFinish : EmitState → LimitOutcome
  | .running _ _ delivered _ => .ok delivered
  | .dead o => o

lemma foldl_emitStep_dead (maxBodySize : Nat) (contentLength : Option Nat)
    (o : LimitOutcome) (chunks : List Chunk) :
    chunks.foldl (emitStep maxBodySize contentLength) (.dead o) = .dead o := by
  induction chunks with
  | nil => rfl
  | cons c rest ih => simpa [emitStep] using ih

lemma foldl_emitStep_running (maxBodySize : Nat) (contentLength : Option Nat)
    (hhdr : headerExceeds contentLength maxBodySize = false) :
    ∀ (chunks : List Chunk) (size received : Nat) (delivered : List Chunk) (hc : Bool),
      emitFinish (chunks.foldl (emitStep maxBodySize contentLength)
        (.running size received delivered hc))
      = nodeEmitGo maxBodySize size received chunks delivered := by
  intro chunks
  induction chunks with
  | nil => intro size received delivered hc; rfl
  | cons c rest ih =>
    intro size received delivered hc
    by_cases h : size + c.length > maxBodySize
    · simp [emitStep, nodeEmitGo, hhdr, h, foldl_emitStep_dead, emitFinish]
    · simp [emitStep, nodeEmitGo, hhdr, h, ih]

/-- The event-by-event state machine of one call agrees with the direct
description `nodeEmitRun` of the Node body-limit interceptor. -/
lemma emitRun_eq_nodeEmitRun (maxBodySize : Nat) (contentLength : Option Nat)
    (chunks : List Chunk) :
    emitFinish (chunks.foldl (emitStep maxBodySize contentLength) emitInit)
      = nodeEmitRun maxBodySize contentLength chunks := by
  cases chunks with
  | nil => rfl
  | cons c rest =>
    by_cases hhdr : headerExceeds contentLength maxBodySize
    · simp [emitInit, emitStep, nodeEmitRun, hhdr, foldl_emitStep_dead, emitFinish]
    · simp only [Bool.not_eq_true] at hhdr
      by_cases h : maxBodySize < c.length
      · simp [emitInit, emitStep, nodeEmitRun, nodeEmitGo, hhdr, h,
          foldl_emitStep_dead, emitFinish]
      · simp [emitInit, emitStep, nodeEmitRun, nodeEmitGo, hhdr, h,
          foldl_emitStep_running]

lemma nodeEmitGo_under (maxBodySize : Nat) :
    ∀ (chunks : List Chunk) (size received : Nat) (delivered : List Chunk),
      size + totalSize chunks ≤ maxBodySize →
      nodeEmitGo maxBodySize size received chunks delivered = .ok (delivered ++ chunks) := by
  intro chunks
  induction chunks with
  | nil => intro size received delivered _; simp [nodeEmitGo]
  | cons c rest ih =>
    intro size received delivered h
    have hc : ¬ size + c.length > maxBodySize := by
      simp only [totalSize, List.map_cons, List.sum_cons] at h
      omega
    have hrec : (size + c.length) + totalSize rest ≤ maxBodySize := by
      simp only [totalSize, List.map_cons, List.sum_cons] at h ⊢
      omega
    simp [nodeEmitGo, hc, ih _ _ _ hrec]

lemma nodeEmitGo_cons (maxBodySize size received : Nat) (c : Chunk)
    (rest delivered : List Chunk) :
    nodeEmitGo maxBodySize size received (c :: rest) delivered
      = if size + c.length > maxBodySize then .tooLarge (received + 1) delivered
        else nodeEmitGo maxBodySize (size + c.length) (received + 1) rest (delivered ++ [c]) :=
  rfl

lemma nodeEmitGo_trip (maxBodySize : Nat) (c : Chunk) (rest : List Chunk) :
    ∀ (pre : List Chunk) (size received : Nat) (delivered : List Chunk),
      size + totalSize pre ≤ maxBodySize →
      size + totalSize pre + c.length > maxBodySize →
      nodeEmitGo maxBodySize size received (pre ++ c :: rest) delivered
        = .tooLarge (received + pre.length + 1) (delivered ++ pre) := by
  intro pre
  induction pre with
  | nil =>
    intro size received delivered _ htrip
    simp only [totalSize, List.map_nil, List.sum_nil, Nat.add_zero] at htrip
    simp [nodeEmitGo, htrip]
  | cons p pre ih =>
    intro size received delivered hpre htrip
    simp only [totalSize, List.map_cons, List.sum_cons] at hpre htrip
    have hp : ¬ size + p.length > maxBodySize := by omega
    have hpre2 : (size + p.length) + totalSize pre ≤ maxBodySize := by
      simp only [totalSize]; omega
    have htrip2 : (size + p.length) + totalSize pre + c.length > maxBodySize := by
      simp only [totalSize]; omega
    rw [List.cons_append, nodeEmitGo_cons, if_neg hp, ih _ _ _ hpre2 htrip2]
    simp only [List.append_assoc, List.singleton_append, List.length_cons]
    congr 1
    omega

lemma fetchWrapGo_under (maxBodySize : Nat) :
    ∀ (chunks : List Chunk) (size : Nat),
      size + totalSize chunks ≤ maxBodySize →
      fetchWrapGo maxBodySize size chunks = ⟨false, chunks, chunks.length⟩ := by
  intro chunks
  induction chunks with
  | nil => intro size _; rfl
  | cons c rest ih =>
    intro size h
    simp only [totalSize, List.map_cons, List.sum_cons] at h
    have hc : ¬ size + c.length > maxBodySize := by omega
    have hrec : (size + c.length) + totalSize rest ≤ maxBodySize := by
      simp only [totalSize]; omega
    simp [fetchWrapGo, hc, ih _ hrec]

lemma fetchWrapGo_trip (maxBodySize : Nat) (c : Chunk) (rest : List Chunk) :
    ∀ (pre : List Chunk) (size : Nat),
      size + totalSize pre ≤ maxBodySize →
      size + totalSize pre + c.length > maxBodySize →
      fetchWrapGo maxBodySize size (pre ++ c :: rest) = ⟨true, pre, pre.length + 1⟩ := by
  intro pre
  induction pre with
  | nil =>
    intro size _ htrip
    simp only [totalSize, List.map_nil, List.sum_nil, Nat.add_zero] at htrip
    simp [fetchWrapGo, htrip]
  | cons p pre ih =>
    intro size hpre htrip
    simp only [totalSize, List.map_cons, List.sum_cons] at hpre htrip
    have hp : ¬ size + p.length > maxBodySize := by omega
    have hpre2 : (size + p.length) + totalSize pre ≤ maxBodySize := by
      simp only [totalSize]; omega
    have htrip2 : (size + p.length) + totalSize pre + c.length > maxBodySize := by
      simp only [totalSize]; omega
    simp [fetchWrapGo, hp, ih _ hpre2 htrip2]

lemma nodeEmitRun_cons (maxBodySize : Nat) (contentLength : Option Nat)
    (c : Chunk) (rest : List Chunk) :
    nodeEmitRun maxBodySize contentLength (c :: rest)
      = if headerExceeds contentLength maxBodySize then .tooLarge 1 []
        else nodeEmitGo maxBodySize 0 0 (c :: rest) [] := rfl

/-- C2, as stated, is false on the Node adapter: with limit 2 and three
one-byte chunks, the limit trips on the third chunk, but the first two
chunks have already been forwarded downstream through the original
`emit` (delivered list `[[7], [8]]`, not empty), so the bytes received
before the tripping chunk are not discarded. -/
theorem nodeBodyLimit_delivers_before_trip :
    nodeEmitRun 2 none [[7], [8], [9]] = .tooLarge 3 [[7], [8]]
    ∧ ([[7], [8]] : List Chunk) ≠ [] := by
  constructor
  · rfl
  · decide

/-- C2 (amended): for a body streamed without a usable length header,
both body-limit plugins reject with `PAYLOAD_TOO_LARGE` exactly after
the first chunk that makes the cumulative byte count strictly exceed
`maxBodySize` (nothing past that chunk is pulled); in the Fetch adapter
the wrapped stream is errored so a consumer receives none of the earlier
bytes, while in the Node adapter the chunks before the tripping one have
already been emitted downstream. -/
theorem bodyLimit_stream_trip (maxBodySize : Nat) (pre : List Chunk) (c : Chunk)
    (rest : List Chunk)
    (hpre : totalSize pre ≤ maxBodySize)
    (htrip : totalSize pre + c.length > maxBodySize) :
    fetchWrap maxBodySize none (pre ++ c :: rest) = ⟨true, pre, pre.length + 1⟩
    ∧ consumerReceives (fetchWrap maxBodySize none (pre ++ c :: rest)) = []
    ∧ nodeEmitRun maxBodySize none (pre ++ c :: rest) = .tooLarge (pre.length + 1) pre := by
  have hfetch : fetchWrap maxBodySize none (pre ++ c :: rest) = ⟨true, pre, pre.length + 1⟩ := by
    have := fetchWrapGo_trip maxBodySize c rest pre 0 (by omega) (by omega)
    simpa [fetchWrap, headerExceeds] using this
  refine ⟨hfetch, by simp [hfetch, consumerReceives], ?_⟩
  have hgo := nodeEmitGo_trip maxBodySize c rest pre 0 0 [] (by omega) (by omega)
  cases pre with
  | nil =>
    simpa [nodeEmitRun_cons, headerExceeds] using hgo
  | cons p pre2 =>
    rw [List.cons_append, nodeEmitRun_cons]
    simpa [headerExceeds] using hgo

theorem bodyLimit_stream_trip_witness :
    (totalSize [[7]] ≤ 2 ∧ totalSize [[7]] + ([8, 9] : Chunk).length > 2)
    ∧ (fetchWrap 2 none [[7], [8, 9], [5]] = ⟨true, [[7]], 2⟩
        ∧ consumerReceives (fetchWrap 2 none [[7], [8, 9], [5]]) = []
        ∧ nodeEmitRun 2 none [[7], [8, 9], [5]] = .tooLarge 2 [[7]]) :=
  ⟨by decide, bodyLimit_stream_trip 2 [[7]] [8, 9] [[5]] (by decide) (by decide)⟩

/-- C3, as stated, is false on the Node adapter: with limit 5 and a
declared Content-Length of 6, the rejection is only triggered by the
arrival of the first body chunk (`received = 1`, a body byte has been
read before the call is rejected), and when no data event ever arrives
the oversized declaration is never checked at all and the call is not
rejected. -/
theorem nodeBodyLimit_header_check_is_lazy :
    nodeEmitRun 5 (some 6) [[0]] = .tooLarge 1 []
    ∧ (1 : Nat) ≠ 0
    ∧ nodeEmitRun 5 (some 6) [] = .ok [] := by
  exact ⟨rfl, by decide, rfl⟩

/-- C3 (amended): for a request with a body whose Content-Length header
declares a size strictly greater than `maxBodySize`, the Fetch adapter
errors the wrapped stream before pulling a single byte from the source
(`pulled = 0`) and a consumer receives nothing; the Node adapter rejects
the call when the first body chunk arrives — after that chunk has been
received (`received = 1`) but before any byte is delivered downstream. -/
theorem bodyLimit_header_reject (maxBodySize n : Nat) (hn : n > maxBodySize)
    (chunks : List Chunk) (c : Chunk) (rest : List Chunk) :
    fetchWrap maxBodySize (some n) chunks = ⟨true, [], 0⟩
    ∧ consumerReceives (fetchWrap maxBodySize (some n) chunks) = []
    ∧ nodeEmitRun maxBodySize (some n) (c :: rest) = .tooLarge 1 [] := by
  have hh : headerExceeds (some n) maxBodySize = true := by
    simp [headerExceeds, hn]
  refine ⟨by simp [fetchWrap, hh], ?_, by simp [nodeEmitRun_cons, hh]⟩
  simp [fetchWrap, hh, consumerReceives]

theorem bodyLimit_header_reject_witness :
    (6 > 5)
    ∧ (fetchWrap 5 (some 6) [[1]] = ⟨true, [], 0⟩
        ∧ consumerReceives (fetchWrap 5 (some 6) [[1]]) = []
        ∧ nodeEmitRun 5 (some 6) [[1], [2]] = .tooLarge 1 []) :=
  ⟨by decide, bodyLimit_header_reject 5 6 (by decide) [[1]] [1] [[2]]⟩

/-- C8: when the declared Content-Length and the cumulative streamed
size both equal exactly `maxBodySize`, neither plugin raises
`PAYLOAD_TOO_LARGE`: both the header check and the incremental check use
a strict greater-than comparison, so the limit is inclusive, and every
chunk is delivered. -/
theorem bodyLimit_inclusive_at_limit (maxBodySize : Nat) (chunks : List Chunk)
    (h : totalSize chunks = maxBodySize) :
    fetchWrap maxBodySize (some maxBodySize) chunks = ⟨false, chunks, chunks.length⟩
    ∧ consumerReceives (fetchWrap maxBodySize (some maxBodySize) chunks) = chunks
    ∧ nodeEmitRun maxBodySize (some maxBodySize) chunks = .ok chunks := by
  have hh : headerExceeds (some maxBodySize) maxBodySize = false := by
    simp [headerExceeds]
  have hfetch : fetchWrap maxBodySize (some maxBodySize) chunks
      = ⟨false, chunks, chunks.length⟩ := by
    have := fetchWrapGo_under maxBodySize chunks 0 (by omega)
    simpa [fetchWrap, hh] using this
  refine ⟨hfetch, by simp [hfetch, consumerReceives], ?_⟩
  cases chunks with
  | nil => rfl
  | cons c rest =>
    have := nodeEmitGo_under maxBodySize (c :: rest) 0 0 [] (by omega)
    simpa [nodeEmitRun_cons, hh] using this

theorem bodyLimit_inclusive_at_limit_witness :
    (totalSize [[1, 2], [3]] = 3)
    ∧ (fetchWrap 3 (some 3) [[1, 2], [3]] = ⟨false, [[1, 2], [3]], 2⟩
        ∧ consumerReceives (fetchWrap 3 (some 3) [[1, 2], [3]]) = [[1, 2], [3]]
        ∧ nodeEmitRun 3 (some 3) [[1, 2], [3]] = .ok [[1, 2], [3]]) :=
  ⟨by decide, bodyLimit_inclusive_at_limit 3 [[1, 2], [3]] (by decide)⟩

/-- One event of an interleaved execution of two calls through the same
`BodyLimitPlugin` instance: the flag says which call the arriving body
chunk belongs to. -/
abbrev TaggedChunk := Bool × Chunk

/-- Interleaved execution of two calls: each call owns its own closure
state (`currentBodySize`, `isHeaderChecked`, ...) because those are
local variables of the interceptor invocation; a data event only updates
the state of the call it belongs to.  The limit (`maxBodySize`) comes
from the shared plugin instance, while each call has its own
Content-Length header. -/
def pairStep (maxBodySize : Nat) (hdrA hdrB : Option Nat)
    (s : EmitState × EmitState) (e : TaggedChunk) : EmitState × EmitState :=
  match e with
  | (true, c) => (emitStep maxBodySize hdrA s.1 c, s.2)
  | (false, c) => (s.1, emitStep maxBodySize hdrB s.2 c)

/-- The body chunks of one of the two interleaved calls, in arrival
order. -/
def chunksOf (tag : Bool) (events : List TaggedChunk) : List Chunk :=
  (events.filter (fun e => e.1 == tag)).map (fun e => e.2)

lemma pairStep_foldl (maxBodySize : Nat) (hdrA hdrB : Option Nat) :
    ∀ (events : List TaggedChunk) (sa sb : EmitState),
      events.foldl (pairStep maxBodySize hdrA hdrB) (sa, sb)
        = ((chunksOf true events).foldl (emitStep maxBodySize hdrA) sa,
           (chunksOf false events).foldl (emitStep maxBodySize hdrB) sb) := by
  intro events
  induction events with
  | nil => intro sa sb; rfl
  | cons e rest ih =>
    intro sa sb
    obtain ⟨tag, c⟩ := e
    cases tag with
    | true => simp [pairStep, chunksOf, List.foldl_cons, ih]
    | false => simp [pairStep, chunksOf, List.foldl_cons, ih]

/-- C4: the running byte counter of the `BodyLimitPlugin` is call-local.
For any interleaving of the body chunks of two calls through the same
plugin instance, each call's outcome is exactly the outcome of running
that call alone on its own chunks: whether one call trips the limit is
unaffected by the bytes of the other call. -/
theorem bodyLimit_counter_call_local (maxBodySize : Nat) (hdrA hdrB : Option Nat)
    (events : List TaggedChunk) :
    emitFinish ((events.foldl (pairStep maxBodySize hdrA hdrB) (emitInit, emitInit)).1)
      = nodeEmitRun maxBodySize hdrA (chunksOf true events)
    ∧ emitFinish ((events.foldl (pairStep maxBodySize hdrA hdrB) (emitInit, emitInit)).2)
      = nodeEmitRun maxBodySize hdrB (chunksOf false events) := by
  rw [pairStep_foldl]
  exact ⟨emitRun_eq_nodeEmitRun _ _ _, emitRun_eq_nodeEmitRun _ _ _⟩

/-- A transport-neutral standard response: status, headers and body are
abstracted to the fields the adapter theorems need. -/
structure StdResponse where
  status : Nat
  body : String
deriving DecidableEq, Repr

/-- Result of the inner `StandardHandler.handle`: either it matched the
request and produced a standard response, or it did not match. -/
inductive StandardHandleResult where
  | matched (response : StdResponse)
  | unmatched
deriving DecidableEq, Repr

/-- Observable state of the native Node.js response object: the standard
responses written to it by `sendStandardResponse`. -/
structure NodeWorld where
  sent : List StdResponse
deriving DecidableEq, Repr

/-- Modelled from the spec: `sendStandardResponse` from
`@orpc/standard-server-node` (only imported under `src/`) writes a
standard response to the native Node.js response object; modelled as
appending the response to the record of writes. -/
def sendStandardResponse (w : NodeWorld) (response : StdResponse) : NodeWorld :=
  ⟨w.sent ++ [response]⟩

/-- The `NodeHttpHandleResult` type of the Node adapter:
`{ matched: true } | { matched: false }` — the matched variant carries
no response value. -/
inductive NodeHttpHandleResult where
  | matched
  | notMatched
deriving DecidableEq, Repr

/-- Modelled from the spec: `intercept` from `@orpc/shared` (only
re-exported under `src/`), the ordered-composition primitive of §4.1:
each interceptor, in list order, receives the current input and a `next`
callback invoking the remainder of the chain, with the terminal function
at the end. -/
def intercept {α β : Type _} : List (α → (α → β) → β) → α → (α → β) → β
  | [], input, main => main input
  | i :: rest, input, main => i input (fun input2 => intercept rest input2 main)

/-- Core of `NodeHttpHandler.handle` (the terminal function given to
`intercept`): convert the native request, run the inner standard
handler, and either return `{ matched: false }` untouched or write the
standard response to the native response object and return
`{ matched: true }`.  The request type is abstract; `standardHandler`
stands for the inner handler composed with `toStandardLazyRequest`. -/
def nodeHandleCore {ρ : Type _} (standardHandler : ρ → StandardHandleResult)
    (request : ρ) (w : NodeWorld) : NodeHttpHandleResult × NodeWorld :=
  match standardHandler request with
  | .unmatched => (.notMatched, w)
  | .matched response => (.matched, sendStandardResponse w response)

/-- Definition of `NodeHttpHandler.handle`: the core wrapped by `intercept` over the
handler's adapter interceptors. -/
def nodeHttpHandle {ρ : Type _}
    (adapterInterceptors :
      List (ρ → (ρ → NodeWorld → NodeHttpHandleResult × NodeWorld)
              → NodeWorld → NodeHttpHandleResult × NodeWorld))
    (standardHandler : ρ → StandardHandleResult) (request : ρ)
    (w : NodeWorld) : NodeHttpHandleResult × NodeWorld :=
  intercept adapterInterceptors request
    (fun request2 w2 => nodeHandleCore standardHandler request2 w2) w

/-- A Fetch API `Response`, built from a standard response. -/
structure FetchResponse where
  std : StdResponse
deriving DecidableEq, Repr

/-- Modelled from the spec: `toFetchResponse` from
`@orpc/standard-server-fetch` (only imported under `src/`) encodes a
standard response as a Fetch `Response`; modelled as a tagged wrapper. -/
def toFetchResponse (response : StdResponse) : FetchResponse :=
  ⟨response⟩

/-- The `FetchHandleResult` type of the Fetch adapter:
`{ matched: true, response: Response } | { matched: false, response: undefined }`. -/
inductive FetchHandleResult where
  | matched (response : FetchResponse)
  | notMatched
deriving DecidableEq, Repr

/-- Core of `FetchHandler.handle`: run the inner standard handler and
either return the unmatched result directly or convert the standard
response to a Fetch `Response`. -/
def fetchHandleCore {ρ : Type _} (standardHandler : ρ → StandardHandleResult)
    (request : ρ) : FetchHandleResult :=
  match standardHandler request with
  | .unmatched => .notMatched
  | .matched response => .matched (toFetchResponse response)

/-- Definition of `FetchHandler.handle`: the core wrapped by `intercept` over the
handler's adapter interceptors. -/
def fetchHandle {ρ : Type _}
    (adapterInterceptors : List (ρ → (ρ → FetchHandleResult) → FetchHandleResult))
    (standardHandler : ρ → StandardHandleResult) (request : ρ) : FetchHandleResult :=
  intercept adapterInterceptors request (fetchHandleCore standardHandler)

/-- C1: for a `NodeHttpHandler` with no adapter interceptors configured,
`handle` returns `{ matched: false }` exactly when the inner
`StandardHandler` reports `matched: false`, and in that case
`sendStandardResponse` is never invoked — the native response object is
left untouched; when the inner handler matches, the standard response is
written via `sendStandardResponse` and the result is `{ matched: true }`. -/
theorem nodeHttpHandle_matching_contract {ρ : Type _}
    (adapterInterceptors :
      List (ρ → (ρ → NodeWorld → NodeHttpHandleResult × NodeWorld)
              → NodeWorld → NodeHttpHandleResult × NodeWorld))
    (hnone : adapterInterceptors = [])
    (standardHandler : ρ → StandardHandleResult) (request : ρ) (w : NodeWorld) :
    ((nodeHttpHandle adapterInterceptors standardHandler request w).1
        = NodeHttpHandleResult.notMatched
      ↔ standardHandler request = StandardHandleResult.unmatched)
    ∧ (standardHandler request = StandardHandleResult.unmatched →
        nodeHttpHandle adapterInterceptors standardHandler request w
          = (NodeHttpHandleResult.notMatched, w))
    ∧ (∀ response, standardHandler request = StandardHandleResult.matched response →
        nodeHttpHandle adapterInterceptors standardHandler request w
          = (NodeHttpHandleResult.matched, sendStandardResponse w response)) := by
  subst hnone
  cases h : standardHandler request with
  | matched response =>
    refine ⟨?_, by simp [h], ?_⟩
    · simp [nodeHttpHandle, intercept, nodeHandleCore, h]
    · intro response2 h2
      cases h2
      simp [nodeHttpHandle, intercept, nodeHandleCore, h]
  | unmatched =>
    refine ⟨?_, ?_, ?_⟩
    · simp [nodeHttpHandle, intercept, nodeHandleCore, h]
    · intro _; simp [nodeHttpHandle, intercept, nodeHandleCore, h]
    · intro response2 h2
      cases h2

theorem nodeHttpHandle_matching_contract_witness :
    ((nodeHttpHandle [] (fun _ : Unit => StandardHandleResult.unmatched) () ⟨[]⟩).1
        = NodeHttpHandleResult.notMatched
      ↔ (fun _ : Unit => StandardHandleResult.unmatched) () = StandardHandleResult.unmatched)
    ∧ ((fun _ : Unit => StandardHandleResult.unmatched) () = StandardHandleResult.unmatched →
        nodeHttpHandle [] (fun _ : Unit => StandardHandleResult.unmatched) () ⟨[]⟩
          = (NodeHttpHandleResult.notMatched, ⟨[]⟩))
    ∧ (∀ response,
        (fun _ : Unit => StandardHandleResult.unmatched) ()
            = StandardHandleResult.matched response →
        nodeHttpHandle [] (fun _ : Unit => StandardHandleResult.unmatched) () ⟨[]⟩
          = (NodeHttpHandleResult.matched, sendStandardResponse ⟨[]⟩ response)) :=
  nodeHttpHandle_matching_contract [] rfl (fun _ : Unit => StandardHandleResult.unmatched) () ⟨[]⟩

/-- C5, as stated, is false on the Node adapter: `NodeHttpHandleResult`
is `{ matched: true } | { matched: false }`, so a matched result carries
no response value — no projection of the result can recover the
response, since two calls whose inner handler matched with the distinct
responses `⟨200, "a"⟩` and `⟨404, "b"⟩` return the very same result
value. -/
theorem nodeHandleResult_carries_no_response :
    ¬ ∃ f : NodeHttpHandleResult → Option StdResponse,
        ∀ (response : StdResponse) (w : NodeWorld),
          f (nodeHttpHandle [] (fun _ : Unit => StandardHandleResult.matched response) () w).1
            = some response := by
  rintro ⟨f, hf⟩
  have h1 := hf ⟨200, "a"⟩ ⟨[]⟩
  have h2 := hf ⟨404, "b"⟩ ⟨[]⟩
  simp only [nodeHttpHandle, intercept, nodeHandleCore] at h1 h2
  rw [h1] at h2
  exact absurd (Option.some.inj h2) (by decide)

/-- C5 (amended): every completed call of an adapter-facing `handle`
returns exactly one of the two matching outcomes; the Fetch adapter's
matched result carries the Fetch `Response` built from the standard
response, while the Node adapter's matched result carries only the
matched flag — its response is written to the native response object via
`sendStandardResponse` instead of being returned. -/
theorem adapter_result_shapes {ρ : Type _}
    (standardHandler : ρ → StandardHandleResult) (request : ρ) (w : NodeWorld) :
    (∀ r : FetchHandleResult,
      (∃ response, r = FetchHandleResult.matched response) ∨ r = FetchHandleResult.notMatched)
    ∧ (∀ response, standardHandler request = StandardHandleResult.matched response →
        fetchHandle [] standardHandler request
            = FetchHandleResult.matched (toFetchResponse response)
        ∧ nodeHttpHandle [] standardHandler request w
            = (NodeHttpHandleResult.matched, sendStandardResponse w response))
    ∧ (standardHandler request = StandardHandleResult.unmatched →
        fetchHandle [] standardHandler request = FetchHandleResult.notMatched
        ∧ nodeHttpHandle [] standardHandler request w
            = (NodeHttpHandleResult.notMatched, w)) := by
  refine ⟨?_, ?_, ?_⟩
  · intro r
    cases r with
    | matched response => exact Or.inl ⟨response, rfl⟩
    | notMatched => exact Or.inr rfl
  · intro response h
    constructor
    · simp [fetchHandle, intercept, fetchHandleCore, h]
    · simp [nodeHttpHandle, intercept, nodeHandleCore, h]
  · intro h
    constructor
    · simp [fetchHandle, intercept, fetchHandleCore, h]
    · simp [nodeHttpHandle, intercept, nodeHandleCore, h]

theorem adapter_result_shapes_witness :
    fetchHandle [] (fun _ : Unit => StandardHandleResult.matched ⟨200, "ok"⟩) ()
        = FetchHandleResult.matched (toFetchResponse ⟨200, "ok"⟩)
    ∧ nodeHttpHandle [] (fun _ : Unit => StandardHandleResult.matched ⟨200, "ok"⟩) () ⟨[]⟩
        = (NodeHttpHandleResult.matched, sendStandardResponse ⟨[]⟩ ⟨200, "ok"⟩) :=
  (adapter_result_shapes (fun _ : Unit => StandardHandleResult.matched ⟨200, "ok"⟩)
    () ⟨[]⟩).2.1 ⟨200, "ok"⟩ rfl

/-- The options record the handler constructor threads through every
plugin's `initRuntimeAdapter`: only the `adapterInterceptors` field
matters here, and it may be absent (`undefined`) before any plugin or
user supplies it. -/
structure AdapterOptions (ι : Type _) where
  adapterInterceptors : Option (List ι)

/-- The `toArray` helper from `@orpc/shared`, as used by both handler
constructors: an absent list becomes the empty list. -/
def toArray {ι : Type _} (xs : Option (List ι)) : List ι :=
  xs.getD []

/-- What `BodyLimitPlugin.initRuntimeAdapter` (and any plugin that
registers an interceptor the same way) does to the options:
`options.adapterInterceptors ??= []` followed by a `push`. -/
def pushAdapterInterceptor {ι : Type _} (i : ι) (o : AdapterOptions ι) : AdapterOptions ι :=
  ⟨some (toArray o.adapterInterceptors ++ [i])⟩

/-- Definition of `CompositeNodeHttpHandlerPlugin.initRuntimeAdapter` (and its Fetch
counterpart): run every plugin's `initRuntimeAdapter` on the options, in
plugin registration order. -/
def compositeInitRuntimeAdapter {ι : Type _}
    (inits : List (AdapterOptions ι → AdapterOptions ι))
    (o : AdapterOptions ι) : AdapterOptions ι :=
  inits.foldl (fun acc init => init acc) o

/-- The handler constructor: compose the plugins, run their
`initRuntimeAdapter` hooks on the options, and only then copy
`toArray(options.adapterInterceptors)` into the handler's effective
interceptor list. -/
def handlerEffectiveInterceptors {ι : Type _}
    (inits : List (AdapterOptions ι → AdapterOptions ι))
    (o : AdapterOptions ι) : List ι :=
  toArray (compositeInitRuntimeAdapter inits o).adapterInterceptors

/-- C9: interceptors pushed onto `options.adapterInterceptors` by
plugins during `initRuntimeAdapter` end up in the handler's effective
interceptor list, appended after the user-supplied interceptors and in
plugin registration order, because the constructor runs every plugin's
hook before copying the field. -/
theorem plugin_interceptors_appended {ι : Type _} :
    ∀ (pushed : List ι) (o : AdapterOptions ι),
      handlerEffectiveInterceptors (pushed.map pushAdapterInterceptor) o
        = toArray o.adapterInterceptors ++ pushed := by
  intro pushed
  induction pushed with
  | nil =>
    intro o
    simp [handlerEffectiveInterceptors, compositeInitRuntimeAdapter]
  | cons i rest ih =>
    intro o
    have step :
        handlerEffectiveInterceptors ((i :: rest).map pushAdapterInterceptor) o
          = handlerEffectiveInterceptors (rest.map pushAdapterInterceptor)
              (pushAdapterInterceptor i o) := rfl
    rw [step, ih]
    simp [pushAdapterInterceptor, toArray]

/-- The `createORPCClientOptions` record: an optional base path. -/
structure ClientOptions where
  path : Option (List String)
deriving DecidableEq, Repr

/-- The path resolution `options?.path ?? []` at the top of
`createORPCClient`: absent options, or options without a path, give the
empty path. -/
def resolvedPath (options : Option ClientOptions) : List String :=
  match options with
  | some o => o.path.getD []
  | none => []

/-- A client proxy produced by `createORPCClient`, determined (for a
fixed link) by the options it was created with. -/
structure ORPCClient where
  options : Option ClientOptions
deriving DecidableEq, Repr

/-- Definition of `createORPCClient`: build the proxy for the given options. -/
def createORPCClient (options : Option ClientOptions) : ORPCClient :=
  ⟨options⟩

/-- The proxy's `get` trap for a string key: recursively call
`createORPCClient` with the key appended to the accumulated path
(`{...options, path: [...path, key]}`). -/
def clientAccess (c : ORPCClient) (key : String) : ORPCClient :=
  createORPCClient (some ⟨some (resolvedPath c.options ++ [key])⟩)

/-- A `ClientLink`: its `call` receives the full path, the input and the
resolved options. -/
structure ClientLink (I R O : Type _) where
  call : List String → I → R → O

/-- The `get` trap performs property accesses only — it never invokes
`link.call` — so an access step yields the nested client together with
an empty list of `link.call` invocations. -/
def clientAccessTraced {I R : Type _} (c : ORPCClient) (key : String) :
    ORPCClient × List (List String × I × R) :=
  (clientAccess c key, [])

/-- A chain of property accesses on the proxy, accumulating the
`link.call` invocations each access performs. -/
def accessChainTraced {I R : Type _} (c : ORPCClient) (keys : List String) :
    ORPCClient × List (List String × I × R) :=
  keys.foldl
    (fun acc key =>
      let step := clientAccessTraced (I := I) (R := R) acc.1 key
      (step.1, acc.2 ++ step.2))
    (c, [])

/-- Definition of `procedureClient`, reached when the proxied value is invoked: it
calls `link.call` with the accumulated path, the input and the resolved
options, and returns the result.  The second component records the
`link.call` invocations made; `resolveOptions` stands for
`resolveFriendlyClientOptions` (imported from `./utils`, not under
`src/`). -/
def clientInvoke {I R2 R O : Type _} (link : ClientLink I R O)
    (resolveOptions : R2 → R) (c : ORPCClient) (input : I) (options : R2) :
    O × List (List String × I × R) :=
  (link.call (resolvedPath c.options) input (resolveOptions options),
   [(resolvedPath c.options, input, resolveOptions options)])

lemma resolvedPath_clientAccess (c : ORPCClient) (key : String) :
    resolvedPath (clientAccess c key).options = resolvedPath c.options ++ [key] := rfl

lemma accessChainTraced_eq {I R : Type _} :
    ∀ (keys : List String) (c : ORPCClient),
      (accessChainTraced (I := I) (R := R) c keys).2 = []
      ∧ resolvedPath (accessChainTraced (I := I) (R := R) c keys).1.options
          = resolvedPath c.options ++ keys := by
  intro keys
  induction keys with
  | nil => intro c; exact ⟨rfl, by simp [accessChainTraced]⟩
  | cons key rest ih =>
    intro c
    have step : accessChainTraced (I := I) (R := R) c (key :: rest)
        = accessChainTraced (I := I) (R := R) (clientAccess c key) rest := by
      simp [accessChainTraced, clientAccessTraced]
    rw [step]
    refine ⟨(ih (clientAccess c key)).1, ?_⟩
    rw [(ih (clientAccess c key)).2, resolvedPath_clientAccess]
    simp

/-- C6: starting from a client created with base path `p`, accessing the
string keys `keys` in order performs no `link.call` invocation, and
invoking the resulting value with input `input` and options `options`
calls `link.call` exactly once, with path `p ++ keys` (the keys in
access order), the input, and the resolved options. -/
theorem client_proxy_dispatch {I R2 R O : Type _} (link : ClientLink I R O)
    (resolveOptions : R2 → R) (p : List String) (keys : List String)
    (input : I) (options : R2) :
    (accessChainTraced (I := I) (R := R)
        (createORPCClient (some ⟨some p⟩)) keys).2 = []
    ∧ (clientInvoke link resolveOptions
        (accessChainTraced (I := I) (R := R)
          (createORPCClient (some ⟨some p⟩)) keys).1 input options).2
      = [(p ++ keys, input, resolveOptions options)]
    ∧ (clientInvoke link resolveOptions
        (accessChainTraced (I := I) (R := R)
          (createORPCClient (some ⟨some p⟩)) keys).1 input options).1
      = link.call (p ++ keys) input (resolveOptions options) := by
  obtain ⟨htrace, hpath⟩ :=
    accessChainTraced_eq (I := I) (R := R) keys (createORPCClient (some ⟨some p⟩))
  have hbase : resolvedPath (createORPCClient (some ⟨some p⟩)).options = p := rfl
  rw [hbase] at hpath
  exact ⟨htrace, by simp [clientInvoke, hpath], by simp [clientInvoke, hpath]⟩

/-- A property key as seen by the proxy's `get` trap: either a string or
a non-string key (a symbol, identified by a number). -/
inductive PropertyKey where
  | str (s : String)
  | sym (id : Nat)
deriving DecidableEq, Repr

/-- What a `get` trap access can produce: a nested client, or a plain
property of the underlying target returned by `Reflect.get`. -/
inductive ProxyGetResult (V : Type _) where
  | nested (c : ORPCClient)
  | targetValue (v : V)
deriving DecidableEq, Repr

/-- The complete `get` trap of `createORPCClient`: non-string keys are
answered by `Reflect.get` on the target (`targetProp`), string keys by
the recursive client with the key appended to the path. -/
def proxyGet {V : Type _} (c : ORPCClient) (targetProp : Nat → V) :
    PropertyKey → ProxyGetResult V
  | .str key => .nested (clientAccess c key)
  | .sym id => .targetValue (targetProp id)

/-- C10: accessing a non-string key on the client proxy never extends
the accumulated call path — the `get` trap returns the underlying
target's own property — and whenever an access yields a nested client,
the key was a string and the nested client's path is exactly the
original path with that key appended. -/
theorem proxyGet_nonstring_key {V : Type _} (c : ORPCClient) (targetProp : Nat → V) :
    (∀ id, proxyGet c targetProp (PropertyKey.sym id)
        = ProxyGetResult.targetValue (targetProp id))
    ∧ (∀ s, proxyGet c targetProp (PropertyKey.str s)
        = ProxyGetResult.nested (clientAccess c s))
    ∧ (∀ k c2, proxyGet c targetProp k = ProxyGetResult.nested c2 →
        ∃ s, k = PropertyKey.str s
          ∧ resolvedPath c2.options = resolvedPath c.options ++ [s]) := by
  refine ⟨fun _ => rfl, fun _ => rfl, ?_⟩
  intro k c2 h
  cases k with
  | str s =>
    refine ⟨s, rfl, ?_⟩
    cases h
    rfl
  | sym id => cases h

theorem proxyGet_nonstring_key_witness :
    ∃ s, PropertyKey.str "users" = PropertyKey.str s
      ∧ resolvedPath (clientAccess (createORPCClient (some ⟨some ["api"]⟩)) "users").options
        = resolvedPath (createORPCClient (some ⟨some ["api"]⟩)).options ++ [s] :=
  (proxyGet_nonstring_key (createORPCClient (some ⟨some ["api"]⟩))
      (fun _ : Nat => (0 : Nat))).2.2
    (PropertyKey.str "users")
    (clientAccess (createORPCClient (some ⟨some ["api"]⟩)) "users") rfl

/-- A middleware context: a key/value bag, merged by appending (a lookup
prefers the later, overriding entries). -/
abbrev MContext (V : Type _) := List (String × V)

/-- Shallow merge of contexts, `{...base, ...extra}`: entries of `extra`
override entries of `base` with the same key. -/
def mergeContext {V : Type _} (base extra : MContext V) : MContext V :=
  base ++ extra

/-- The result a middleware step produces: the final output together
with the context it passes downstream. -/
structure MiddlewareResult (C A : Type _) where
  output : A
  context : C
deriving DecidableEq, Repr

/-- The `middlewareOutputFn` helper: `{ output, context: {} }`. -/
def middlewareOutputFn {V A : Type _} (output : A) : MiddlewareResult (MContext V) A :=
  ⟨output, []⟩

/-- C7: `middlewareOutputFn v` returns a middleware result whose output
is exactly `v` and whose context is empty, so short-circuiting through
the output helper passes the value through unchanged and contributes no
additional context downstream: merging its context into any incoming
context leaves that context unchanged. -/
theorem middlewareOutputFn_identity {V A : Type _} (v : A) (ctx : MContext V) :
    (middlewareOutputFn (V := V) v).output = v
    ∧ (middlewareOutputFn (V := V) v).context = []
    ∧ mergeContext ctx (middlewareOutputFn (V := V) v).context = ctx := by
  refine ⟨rfl, rfl, ?_⟩
  simp [mergeContext, middlewareOutputFn]

end ORPC
